import Mathlib

/-!
Formal model of the `similar_blog_posts` MkDocs plugin
(`mkdocs_nype/plugins/similar_blog_posts/plugin.py`).

The similarity engine is embedded shallowly:

* Python sets of category strings become `Finset String`;
* Python float arithmetic on small integer-derived quantities becomes
  exact arithmetic over `ℚ`;
* fallible Python operations (`dict[key]` lookup raising `KeyError`,
  `set(None)` raising `TypeError`) become computations in `Except PyErr`;
* CPython object identity (`id(post)`, `post is page`) is modelled by a
  numeric identity field `pid` carried by each `Page`; distinct live objects
  have distinct ids, so identity tests become `pid` equality tests.
-/

namespace SimilarBlogPosts

/-- Python-level exceptions that the modelled code can raise. -/
inductive PyErr where
  | typeError
  | keyError
  deriving DecidableEq, Repr

/-- A blog page/post as the plugin sees it.  `pid` models CPython object
identity (`id(post)`); `categoriesMeta` models `post.meta.get("categories")`
(`none` when the key is absent); `src_uri` is `post.file.src_uri` and
`abs_src_path` is `post.file.abs_src_path`. -/
structure Page where
  pid : Nat
  title : String
  categoriesMeta : Option (List String)
  src_uri : String
  abs_src_path : String
  deriving DecidableEq, Repr

/-- One entry of `blog_instance.blog.views`: `isCategory` models
`isinstance(view, Category)`; `name`/`posts` model `view.name`/`view.posts`. -/
structure BlogView where
  isCategory : Bool
  name : String
  posts : List Page
  deriving DecidableEq, Repr

/-- The plugin options read by `on_page_markdown`
(`self.config.similarity_threshold`, `.max_shown`, `.title`, `.append_at`). -/
structure SimilarBlogPostsConfig where
  similarity_threshold : ℚ
  max_shown : Int
  title : String
  append_at : String
  deriving DecidableEq, Repr

/-- The denominator computed inside `weighted_jaccard_similarity`
(lines 141-147 of plugin.py): the weighted combination when
`use_weights`, otherwise `len(set_a | set_b)`. -/
def wjs_denominator (set_a set_b : Finset String) (use_weights : Bool) : ℚ :=
  if use_weights then
    let weight_a : ℚ := (set_b.card : ℚ) / ((set_a.card : ℚ) + (set_b.card : ℚ))
    let weight_b : ℚ := (set_a.card : ℚ) / ((set_a.card : ℚ) + (set_b.card : ℚ))
    weight_a * (set_a.card : ℚ) + weight_b * (set_b.card : ℚ)
  else
    ((set_a ∪ set_b).card : ℚ)

/-- `SimilarBlogPostsPlugin.weighted_jaccard_similarity` (plugin.py lines
128-149): returns `0` when either set is empty, otherwise
`len(set_a & set_b) / denominator`. -/
def weighted_jaccard_similarity (set_a set_b : Finset String) (use_weights : Bool) : ℚ :=
  if set_a = ∅ ∨ set_b = ∅ then 0
  else ((set_a ∩ set_b).card : ℚ) / wjs_denominator set_a set_b use_weights

lemma card_pos_rat_of_ne_empty {A : Finset String} (hA : A ≠ ∅) : 0 < (A.card : ℚ) := by
  have : 0 < A.card := Finset.card_pos.mpr (Finset.nonempty_iff_ne_empty.mpr hA)
  exact_mod_cast this

lemma wjs_denominator_pos {A B : Finset String} (w : Bool)
    (hA : A ≠ ∅) (hB : B ≠ ∅) : 0 < wjs_denominator A B w := by
  have ha : 0 < (A.card : ℚ) := card_pos_rat_of_ne_empty hA
  have hb : 0 < (B.card : ℚ) := card_pos_rat_of_ne_empty hB
  have hab : 0 < (A.card : ℚ) + (B.card : ℚ) := by linarith
  cases w with
  | false =>
      have : 0 < (A ∪ B).card := by
        refine Finset.card_pos.mpr ?_
        exact (Finset.nonempty_iff_ne_empty.mpr hA).mono Finset.subset_union_left
      simpa [wjs_denominator] using (by exact_mod_cast this : (0 : ℚ) < ((A ∪ B).card : ℚ))
  | true =>
      have h1 : 0 < (B.card : ℚ) / ((A.card : ℚ) + (B.card : ℚ)) * (A.card : ℚ) :=
        mul_pos (div_pos hb hab) ha
      have h2 : 0 < (A.card : ℚ) / ((A.card : ℚ) + (B.card : ℚ)) * (B.card : ℚ) :=
        mul_pos (div_pos ha hab) hb
      simpa [wjs_denominator] using add_pos h1 h2

lemma inter_card_le_denominator {A B : Finset String} (w : Bool)
    (hA : A ≠ ∅) (hB : B ≠ ∅) :
    ((A ∩ B).card : ℚ) ≤ wjs_denominator A B w := by
  have ha : 0 < (A.card : ℚ) := card_pos_rat_of_ne_empty hA
  have hb : 0 < (B.card : ℚ) := card_pos_rat_of_ne_empty hB
  have hab : 0 < (A.card : ℚ) + (B.card : ℚ) := by linarith
  have hia : ((A ∩ B).card : ℚ) ≤ (A.card : ℚ) := by
    exact_mod_cast Finset.card_le_card Finset.inter_subset_left
  have hib : ((A ∩ B).card : ℚ) ≤ (B.card : ℚ) := by
    exact_mod_cast Finset.card_le_card Finset.inter_subset_right
  cases w with
  | false =>
      have : (A ∩ B).card ≤ (A ∪ B).card :=
        Finset.card_le_card (Finset.inter_subset_left.trans Finset.subset_union_left)
      simpa [wjs_denominator] using (by exact_mod_cast this :
        ((A ∩ B).card : ℚ) ≤ ((A ∪ B).card : ℚ))
  | true =>
      set i : ℚ := ((A ∩ B).card : ℚ) with hi
      set a : ℚ := (A.card : ℚ) with hadef
      set b : ℚ := (B.card : ℚ) with hbdef
      have key : i * (a + b) ≤ b * a + a * b := by
        have h1 : i * a ≤ b * a := mul_le_mul_of_nonneg_right hib ha.le
        have h2 : i * b ≤ a * b := mul_le_mul_of_nonneg_right hia hb.le
        nlinarith
      have : i ≤ (b * a + a * b) / (a + b) := (le_div_iff₀ hab).mpr key
      calc i ≤ (b * a + a * b) / (a + b) := this
        _ = b / (a + b) * a + a / (a + b) * b := by field_simp
        _ = wjs_denominator A B true := by simp [wjs_denominator]

/-- State threaded through the candidate loop of `on_page_markdown`
(plugin.py lines 69-90): the accumulated `similar_posts` list and the
`processed_post_ids` set. -/
structure LoopState where
  similar : List (Page × ℚ)
  processed : Finset Nat
  deriving DecidableEq

/-- One iteration of the inner `for post in view.posts` loop (plugin.py
lines 78-90): skip `post is page` and already-processed posts; `set(None)`
raises `TypeError` when the candidate has no `categories` key; append the
candidate exactly when `score >= similarity_threshold`; always record the
candidate's id. -/
def processPost (page : Page) (set_a : Finset String) (threshold : ℚ)
    (st : LoopState) (post : Page) : Except PyErr LoopState :=
  if post.pid = page.pid ∨ post.pid ∈ st.processed then Except.ok st
  else
    match post.categoriesMeta with
    | none => Except.error PyErr.typeError
    | some cats =>
      let set_b := cats.toFinset
      let score := weighted_jaccard_similarity set_a set_b true
      let similar := if threshold ≤ score then st.similar ++ [(post, score)] else st.similar
      Except.ok ⟨similar, insert post.pid st.processed⟩

/-- One iteration of the outer `for view in blog_instance.blog.views` loop
(plugin.py lines 73-90): non-`Category` views and categories not shared with
the current page are skipped. -/
def processView (page : Page) (set_a : Finset String) (threshold : ℚ)
    (st : LoopState) (view : BlogView) : Except PyErr LoopState :=
  if view.isCategory = false ∨ view.name ∉ set_a then Except.ok st
  else view.posts.foldlM (processPost page set_a threshold) st

/-- The whole candidate-gathering phase of `on_page_markdown` (plugin.py
lines 69-90), starting from an empty `similar_posts` list and an empty
`processed_post_ids` set. -/
def gatherSimilar (views : List BlogView) (page : Page) (set_a : Finset String)
    (threshold : ℚ) : Except PyErr LoopState :=
  views.foldlM (processView page set_a threshold) ⟨[], ∅⟩

/-- The sort key order of `sorted(similar_posts, key=lambda p: -p[1])`:
`p` precedes `q` when `-p.score <= -q.score`, i.e. `q.score <= p.score`. -/
def byScoreDesc (p q : Page × ℚ) : Prop := q.2 ≤ p.2

instance : DecidableRel byScoreDesc := fun p q => inferInstanceAs (Decidable (q.2 ≤ p.2))

instance : IsTotal (Page × ℚ) byScoreDesc := ⟨fun a b => le_total b.2 a.2⟩

instance : IsTrans (Page × ℚ) byScoreDesc := ⟨fun _ _ _ hab hbc => le_trans hbc hab⟩

/-- `sorted(similar_posts, key=lambda p: -p[1])` (plugin.py line 97).
Python's `sorted` is a stable sort by ascending key, here `-score`, i.e. a
stable sort by descending score; a stable sort's output is uniquely
determined by that contract, so the insertion sort computes the same list. -/
def sortByScoreDesc (l : List (Page × ℚ)) : List (Page × ℚ) :=
  l.insertionSort byScoreDesc

/-- `similar_posts[: self.config.max_shown]` applied only when
`self.config.max_shown > 0` (plugin.py lines 100-101). -/
def truncateShown (max_shown : Int) (l : List (Page × ℚ)) : List (Page × ℚ) :=
  if 0 < max_shown then l.take max_shown.toNat else l

instance {ε α : Type} [DecidableEq ε] [DecidableEq α] : DecidableEq (Except ε α) := fun a b =>
  match a, b with
  | .error e, .error f =>
    if h : e = f then .isTrue (by rw [h]) else .isFalse (fun hc => h (Except.error.inj hc))
  | .error _, .ok _ => .isFalse (fun hc => Except.noConfusion hc)
  | .ok _, .error _ => .isFalse (fun hc => Except.noConfusion hc)
  | .ok x, .ok y =>
    if h : x = y then .isTrue (by rw [h]) else .isFalse (fun hc => h (Except.ok.inj hc))

/-- Split a character list on a separator character; the Python
`str.split(sep)` for a one-character separator. -/
def splitOnChar (c : Char) : List Char → List (List Char)
  | [] => [[]]
  | x :: xs =>
    match splitOnChar c xs with
    | [] => [[x]]
    | r :: rs => if x = c then [] :: r :: rs else (x :: r) :: rs

/-- Path components of a POSIX path string. -/
def pathParts (s : String) : List String :=
  ((splitOnChar '/' s.toList).map String.mk).filter (fun c => c ≠ "")

/-- `Path(target).relative_to(current, walk_up=True)` on component lists:
drop the common leading components, then one `..` per remaining component
of `current`, then the remaining components of `target`. -/
def relativeWalkUp : List String → List String → List String
  | t :: ts, c :: cs =>
    if t = c then relativeWalkUp ts cs
    else List.replicate (cs.length + 1) ".." ++ t :: ts
  | ts, cs => List.replicate cs.length ".." ++ ts

/-- The `url_path` of one rendered entry (plugin.py lines 109-111). -/
def url_path_of (current_dir : List String) (post : Page) : String :=
  String.intercalate "/" (relativeWalkUp (pathParts post.abs_src_path) current_dir)

/-- The `posts_md` accumulation loop (plugin.py lines 103-113). -/
def postsMarkdown (posts : List (Page × ℚ)) (current_dir : List String) : String :=
  posts.foldl
    (fun acc pr =>
      acc ++ "- [" ++ pr.1.title ++ "](" ++ url_path_of current_dir pr.1 ++ ")\n")
    ""

/-- `SECTION_TEMPLATE.format(title=..., posts_md=...)` (plugin.py lines
115 and 162-173). -/
def SECTION_TEMPLATE (title posts_md : String) : String :=
  "<div class=\"nype-similar\" markdown>\n<div class=\"nype-similar-title\" markdown>"
    ++ title ++ "</div>\n<div class=\"nype-similar-list\" markdown>\n\n"
    ++ posts_md ++ "\n\n</div>\n</div>"

/-- The `for prefix in self.sanitized_prefixes ... break / else return`
search (plugin.py lines 61-66): the first configured root that
`page.file.src_uri` starts with, if any. -/
def firstMatchingRoot : List String → String → Option String
  | [], _ => none
  | p :: ps, uri => if p.toList.isPrefixOf uri.toList then some p else firstMatchingRoot ps uri

/-- The plugin state built by `on_config`: `self.sanitized_prefixes` and
`self.blog_instance_map` (a dict modelled as an association list where the
most recent write is the head, looked up with first-match `lookup`). -/
structure PluginState where
  sanitized_prefixes : List String
  blog_instance_map : List (String × List BlogView)
  deriving DecidableEq, Repr

/-- One `(name, instance)` entry of `config.plugins.items()` as read by
`on_config`: the plugin key, `instance.config.enabled`,
`instance.config.blog_dir`, and the instance's `blog.views`. -/
structure BlogPluginEntry where
  name : String
  enabled : Bool
  blog_dir : String
  views : List BlogView
  deriving DecidableEq, Repr

/-- Python `str.rstrip("/")`: remove all trailing slashes. -/
def rstripSlash (s : String) : String :=
  String.mk ((s.toList.reverse.dropWhile (fun c => c = '/')).reverse)

/-- `SimilarBlogPostsPlugin.on_config` (plugin.py lines 21-48), for a
`hook_blog_dir` already in list form (a plain string is wrapped into a
one-element list before this point).  Returns the built `PluginState`
together with the list of prefixes for which the warning
`"Prefix '...' not found among the blog instances"` is logged; the hook
always continues normally after warning. -/
def on_config (hook_blog_dir : List String) (plugins : List BlogPluginEntry) :
    PluginState × List String :=
  let sanitized := hook_blog_dir.map (fun p => rstripSlash p ++ "/")
  let instMap := plugins.foldl
    (fun acc inst =>
      if ("/blog".toList.isSuffixOf ((splitOnChar ' ' inst.name.toList).headD []) &&
          inst.enabled) then
        let blog_dir := rstripSlash inst.blog_dir ++ "/"
        if blog_dir ∈ sanitized then (blog_dir, inst.views) :: acc else acc
      else acc)
    []
  let warnings := sanitized.filter (fun p => (instMap.lookup p).isNone)
  (⟨sanitized, instMap⟩, warnings)

/-- `SimilarBlogPostsPlugin.on_page_markdown` (plugin.py lines 50-126).
`pure none` models the Python `return` with no value (the page body is then
left unchanged by MkDocs); `pure (some md)` models `return md`.  The
`blog_instance_map[prefix]` dict subscript raises `KeyError` when the
matched prefix has no blog instance. -/
def on_page_markdown (st : PluginState) (cfg : SimilarBlogPostsConfig)
    (page : Page) (markdown : String) : Except PyErr (Option String) :=
  match page.categoriesMeta with
  | none => Except.ok none
  | some categories_self =>
    if categories_self.isEmpty then Except.ok none
    else
      match firstMatchingRoot st.sanitized_prefixes page.src_uri with
      | none => Except.ok none
      | some root =>
        match st.blog_instance_map.lookup root with
        | none => Except.error PyErr.keyError
        | some views => do
          let ls ← gatherSimilar views page categories_self.toFinset cfg.similarity_threshold
          if ls.similar.isEmpty then Except.ok none
          else
            let sorted := sortByScoreDesc ls.similar
            let shown := truncateShown cfg.max_shown sorted
            let current_dir := (pathParts page.abs_src_path).dropLast
            let posts_md := postsMarkdown shown current_dir
            let sec := SECTION_TEMPLATE cfg.title posts_md
            if cfg.append_at = "end" then Except.ok (some (markdown ++ "\n\n" ++ sec))
            else if cfg.append_at = "start" then Except.ok (some (sec ++ "\n\n" ++ markdown))
            else Except.ok (some markdown)

/-- C1: in weighted mode the score on non-empty sets is exactly the spec's
formula `|A ∩ B| / ((|B|/(|A|+|B|))·|A| + (|A|/(|B|+|A|))·|B|)`, and the two
concrete scenarios evaluate to `0.75` and `2/2.4`. -/
theorem weighted_score_formula :
    (∀ A B : Finset String, A ≠ ∅ → B ≠ ∅ →
      weighted_jaccard_similarity A B true =
        ((A ∩ B).card : ℚ) /
          (((B.card : ℚ) / ((A.card : ℚ) + (B.card : ℚ))) * (A.card : ℚ) +
            ((A.card : ℚ) / ((B.card : ℚ) + (A.card : ℚ))) * (B.card : ℚ))) ∧
    weighted_jaccard_similarity {"go", "rust"} {"go"} true = 0.75 ∧
    weighted_jaccard_similarity {"go", "rust"} {"go", "rust", "cpp"} true = 2 / 2.4 := by
  refine ⟨?_, ?_, ?_⟩
  · intro A B hA hB
    rw [weighted_jaccard_similarity, if_neg (by simp [hA, hB])]
    rw [wjs_denominator, if_pos rfl]
    ring_nf
  · have h2 : ({"go", "rust"} : Finset String).card = 2 := by decide
    have h1 : (({"go", "rust"} : Finset String) ∩ {"go"}).card = 1 := by decide
    have h1' : ({"go"} : Finset String).card = 1 := by decide
    rw [weighted_jaccard_similarity, if_neg (by decide), wjs_denominator, if_pos rfl]
    rw [h1, h1', h2]
    norm_num
  · have h2 : ({"go", "rust"} : Finset String).card = 2 := by decide
    have h3 : ({"go", "rust", "cpp"} : Finset String).card = 3 := by decide
    have hi : (({"go", "rust"} : Finset String) ∩ {"go", "rust", "cpp"}).card = 2 := by decide
    rw [weighted_jaccard_similarity, if_neg (by decide), wjs_denominator, if_pos rfl]
    rw [hi, h2, h3]
    norm_num

/-- Closed instantiation of `weighted_score_formula` at the concrete
scenario sets. -/
theorem weighted_score_formula_witness :
    ({"go", "rust"} : Finset String) ≠ ∅ ∧ ({"go"} : Finset String) ≠ ∅ ∧
    weighted_jaccard_similarity {"go", "rust"} {"go"} true =
      ((({"go", "rust"} : Finset String) ∩ {"go"}).card : ℚ) /
        (((({"go"} : Finset String).card : ℚ) /
            ((({"go", "rust"} : Finset String).card : ℚ) + (({"go"} : Finset String).card : ℚ))) *
            (({"go", "rust"} : Finset String).card : ℚ) +
          ((({"go", "rust"} : Finset String).card : ℚ) /
            ((({"go"} : Finset String).card : ℚ) + (({"go", "rust"} : Finset String).card : ℚ))) *
            (({"go"} : Finset String).card : ℚ)) :=
  ⟨by decide, by decide,
    weighted_score_formula.1 {"go", "rust"} {"go"} (by decide) (by decide)⟩

/-- C4: the scoring function is symmetric in its two arguments, in both
the weighted and the unweighted mode. -/
theorem weighted_jaccard_similarity_symm :
    ∀ (A B : Finset String) (w : Bool),
      weighted_jaccard_similarity A B w = weighted_jaccard_similarity B A w := by
  intro A B w
  by_cases hA : A = ∅
  · by_cases hB : B = ∅ <;> simp [weighted_jaccard_similarity, hA, hB]
  · by_cases hB : B = ∅
    · simp [weighted_jaccard_similarity, hA, hB]
    · rw [weighted_jaccard_similarity, weighted_jaccard_similarity,
        if_neg (by simp [hA, hB]), if_neg (by simp [hA, hB]), Finset.inter_comm]
      cases w with
      | false => simp [wjs_denominator, Finset.union_comm]
      | true =>
          simp only [wjs_denominator]
          rw [Finset.union_comm A B]
          ring_nf

/-- C9: the division is guarded — on an empty input the function returns `0`
before dividing, and when division is reached (both sets non-empty) the
denominator is strictly positive, in both modes. -/
theorem division_guarded :
    ∀ (A B : Finset String) (w : Bool),
      ((A = ∅ ∨ B = ∅) → weighted_jaccard_similarity A B w = 0) ∧
      (A ≠ ∅ → B ≠ ∅ → 0 < wjs_denominator A B w) := by
  intro A B w
  constructor
  · intro h
    rw [weighted_jaccard_similarity, if_pos h]
  · intro hA hB
    exact wjs_denominator_pos w hA hB

/-- Closed instantiation of `division_guarded` at concrete sets. -/
theorem division_guarded_witness :
    weighted_jaccard_similarity ∅ {"go"} true = 0 ∧
    0 < wjs_denominator {"go"} {"rust", "go"} false :=
  ⟨(division_guarded ∅ {"go"} true).1 (Or.inl rfl),
    (division_guarded {"go"} {"rust", "go"} false).2 (by decide) (by decide)⟩

/-- C10: the score always lies in the closed interval `[0, 1]`, in both
modes (in weighted mode the denominator `2·|A|·|B|/(|A|+|B|)` is at least
`|A ∩ B|`). -/
theorem score_mem_unit_interval :
    ∀ (A B : Finset String) (w : Bool),
      0 ≤ weighted_jaccard_similarity A B w ∧ weighted_jaccard_similarity A B w ≤ 1 := by
  intro A B w
  by_cases h : A = ∅ ∨ B = ∅
  · rw [weighted_jaccard_similarity, if_pos h]
    norm_num
  · push_neg at h
    obtain ⟨hA, hB⟩ := h
    rw [weighted_jaccard_similarity, if_neg (by simp [hA, hB])]
    have hpos := wjs_denominator_pos w hA hB
    constructor
    · exact div_nonneg (by positivity) hpos.le
    · exact (div_le_one hpos).mpr (inter_card_le_denominator w hA hB)

lemma foldlM_except_nil {α σ ε : Type} (f : σ → α → Except ε σ) (s : σ) :
    List.foldlM f s ([] : List α) = Except.ok s := rfl

lemma foldlM_except_cons {α σ ε : Type} (f : σ → α → Except ε σ) (s : σ) (x : α) (xs : List α) :
    List.foldlM f s (x :: xs) = (f s x >>= fun s' => List.foldlM f s' xs) := rfl

lemma except_bind_ok {α β ε : Type} (a : α) (f : α → Except ε β) :
    (Except.ok a >>= f) = f a := rfl

lemma except_bind_error {α β ε : Type} (e : ε) (f : α → Except ε β) :
    ((Except.error e : Except ε α) >>= f) = Except.error e := rfl

/-- C2: a fresh candidate (not the page itself, not yet processed, with a
`categories` key) is appended to `similar_posts` exactly when its score is
greater than or equal to `similarity_threshold`, and left out exactly when
its score is strictly below it. -/
theorem candidate_kept_iff_score_ge_threshold :
    ∀ (page : Page) (set_a : Finset String) (θ : ℚ) (st : LoopState)
      (post : Page) (cats : List String),
      post.categoriesMeta = some cats →
      post.pid ≠ page.pid → post.pid ∉ st.processed →
      (processPost page set_a θ st post =
          Except.ok ⟨st.similar ++ [(post, weighted_jaccard_similarity set_a cats.toFinset true)],
            insert post.pid st.processed⟩
        ↔ θ ≤ weighted_jaccard_similarity set_a cats.toFinset true) ∧
      (processPost page set_a θ st post =
          Except.ok ⟨st.similar, insert post.pid st.processed⟩
        ↔ weighted_jaccard_similarity set_a cats.toFinset true < θ) := by
  intro page set_a θ st post cats hcats hpid hproc
  have hcond : ¬(post.pid = page.pid ∨ post.pid ∈ st.processed) := by
    push_neg
    exact ⟨hpid, hproc⟩
  have hself : st.similar ++ [(post, weighted_jaccard_similarity set_a cats.toFinset true)] ≠
      st.similar := by
    intro h
    have hlen := congrArg List.length h
    simp only [List.length_append, List.length_cons, List.length_nil] at hlen
    omega
  by_cases hθ : θ ≤ weighted_jaccard_similarity set_a cats.toFinset true
  · have heval : processPost page set_a θ st post =
        Except.ok ⟨st.similar ++ [(post, weighted_jaccard_similarity set_a cats.toFinset true)],
          insert post.pid st.processed⟩ := by
      simp [processPost, hcond, hcats, hθ]
    refine ⟨⟨fun _ => hθ, fun _ => heval⟩, ⟨?_, fun h => absurd hθ (not_le.mpr h)⟩⟩
    intro h
    rw [heval] at h
    have hst := Except.ok.inj h
    exact absurd (congrArg LoopState.similar hst) hself
  · have heval : processPost page set_a θ st post =
        Except.ok ⟨st.similar, insert post.pid st.processed⟩ := by
      simp [processPost, hcond, hcats, hθ]
    refine ⟨⟨?_, fun h => absurd h hθ⟩, ⟨fun _ => not_le.mp hθ, fun _ => heval⟩⟩
    intro h
    rw [heval] at h
    have hst := Except.ok.inj h
    exact absurd (congrArg LoopState.similar hst).symm hself

/-- Closed instantiation of `candidate_kept_iff_score_ge_threshold` at the
threshold boundary: with `similarity_threshold = 3/4`, a candidate whose
score is exactly `3/4` is kept. -/
theorem candidate_kept_iff_score_ge_threshold_witness :
    processPost (⟨0, "self", some ["go", "rust"], "blog/s.md", "/d/blog/s.md"⟩ : Page)
        {"go", "rust"} (3 / 4) ⟨[], ∅⟩
        (⟨1, "other", some ["go"], "blog/o.md", "/d/blog/o.md"⟩ : Page) =
      Except.ok ⟨[] ++ [((⟨1, "other", some ["go"], "blog/o.md", "/d/blog/o.md"⟩ : Page),
          weighted_jaccard_similarity {"go", "rust"} (["go"] : List String).toFinset true)],
        insert 1 (∅ : Finset Nat)⟩ :=
  (candidate_kept_iff_score_ge_threshold
      ⟨0, "self", some ["go", "rust"], "blog/s.md", "/d/blog/s.md"⟩
      {"go", "rust"} (3 / 4) ⟨[], ∅⟩
      ⟨1, "other", some ["go"], "blog/o.md", "/d/blog/o.md"⟩
      ["go"] rfl (by decide) (by decide)).1.mpr
    (by
      have h : weighted_jaccard_similarity {"go", "rust"} (["go"] : List String).toFinset true =
          3 / 4 := by
        have h2 : ({"go", "rust"} : Finset String).card = 2 := by decide
        have h1 : (({"go", "rust"} : Finset String) ∩ (["go"] : List String).toFinset).card = 1 := by
          decide
        have h1' : ((["go"] : List String).toFinset).card = 1 := by decide
        rw [weighted_jaccard_similarity, if_neg (by decide), wjs_denominator, if_pos rfl]
        rw [h1, h1', h2]
        norm_num
      rw [h])

/-- C5 (code bug): a configured collection root with no matching blog
instance is reported as a warning by `on_config` and the hook continues,
but a page with categories under that root then makes `on_page_markdown`
raise `KeyError` at `self.blog_instance_map[prefix]` instead of returning
the body unchanged. -/
theorem missing_instance_raises_keyerror :
    (on_config ["blog"] []).2 = ["blog/"] ∧
    on_page_markdown (on_config ["blog"] []).1
        ⟨1 / 4, 3, "Similar", "end"⟩
        ⟨1, "Post", some ["go"], "blog/posts/a.md", "/w/docs/blog/posts/a.md"⟩
        "body" = Except.error PyErr.keyError :=
  ⟨rfl, rfl⟩

/-- C6 counterexample: scoring a candidate whose `categories` metadata is
absent raises `TypeError` (Python `set(None)`), rather than contributing a
score of `0`. -/
theorem absent_categories_raises_typeerror :
    processPost (⟨0, "self", some ["go"], "blog/s.md", "/d/blog/s.md"⟩ : Page)
        {"go"} (1 / 4) ⟨[], ∅⟩
        (⟨1, "other", none, "blog/o.md", "/d/blog/o.md"⟩ : Page) =
      Except.error PyErr.typeError := rfl

/-- C6 amended: a candidate whose `categories` metadata is present but
empty contributes score `0`, is never selected when the threshold is
positive, and its scoring never raises. -/
theorem empty_categories_score_zero_never_selected :
    ∀ (page : Page) (set_a : Finset String) (θ : ℚ) (st : LoopState) (post : Page),
      post.categoriesMeta = some [] →
      post.pid ≠ page.pid → post.pid ∉ st.processed → 0 < θ →
      weighted_jaccard_similarity set_a (([] : List String).toFinset) true = 0 ∧
      processPost page set_a θ st post =
        Except.ok ⟨st.similar, insert post.pid st.processed⟩ := by
  intro page set_a θ st post hcats hpid hproc hθ
  have hscore : weighted_jaccard_similarity set_a (([] : List String).toFinset) true = 0 := by
    rw [weighted_jaccard_similarity, if_pos (Or.inr (by simp))]
  have hcond : ¬(post.pid = page.pid ∨ post.pid ∈ st.processed) := by
    push_neg
    exact ⟨hpid, hproc⟩
  have hscore' : weighted_jaccard_similarity set_a (∅ : Finset String) true = 0 := by
    rw [weighted_jaccard_similarity, if_pos (Or.inr rfl)]
  have hn : ¬θ ≤ (0 : ℚ) := not_le.mpr hθ
  exact ⟨hscore, by simp [processPost, hcond, hcats, hscore', hn]⟩

/-- Closed instantiation of `empty_categories_score_zero_never_selected`. -/
theorem empty_categories_score_zero_never_selected_witness :
    weighted_jaccard_similarity {"go"} (([] : List String).toFinset) true = 0 ∧
    processPost (⟨0, "self", some ["go"], "blog/s.md", "/d/blog/s.md"⟩ : Page)
        {"go"} (1 / 4) ⟨[], ∅⟩
        (⟨1, "other", some [], "blog/o.md", "/d/blog/o.md"⟩ : Page) =
      Except.ok ⟨[], insert 1 (∅ : Finset Nat)⟩ :=
  empty_categories_score_zero_never_selected
    ⟨0, "self", some ["go"], "blog/s.md", "/d/blog/s.md"⟩
    {"go"} (1 / 4) ⟨[], ∅⟩
    ⟨1, "other", some [], "blog/o.md", "/d/blog/o.md"⟩
    rfl (by decide) (by decide) (by norm_num)

/-- C7: truncation keeps exactly the top `max_shown` entries of the
descending-sorted list when `max_shown > 0` (all entries when fewer
qualify, via the `min`), keeps the whole list when `max_shown <= 0`, and
the kept entries are still in descending score order. -/
theorem truncation_keeps_top_max_shown :
    ∀ (k : Int) (l : List (Page × ℚ)),
      (0 < k → truncateShown k (sortByScoreDesc l) = (sortByScoreDesc l).take k.toNat ∧
        (truncateShown k (sortByScoreDesc l)).length = min k.toNat l.length) ∧
      (k ≤ 0 → truncateShown k (sortByScoreDesc l) = sortByScoreDesc l) ∧
      (truncateShown k (sortByScoreDesc l)).Sorted byScoreDesc := by
  intro k l
  have hsorted : (sortByScoreDesc l).Sorted byScoreDesc :=
    List.sorted_insertionSort byScoreDesc l
  refine ⟨?_, ?_, ?_⟩
  · intro hk
    rw [truncateShown, if_pos hk]
    refine ⟨rfl, ?_⟩
    rw [List.length_take, sortByScoreDesc, List.length_insertionSort]
  · intro hk
    rw [truncateShown, if_neg (not_lt.mpr hk)]
  · rw [truncateShown]
    split_ifs with hk
    · exact hsorted.sublist (List.take_sublist _ _)
    · exact hsorted

/-- Closed instantiation of `truncation_keeps_top_max_shown` with
`max_shown = 1` and two qualifying candidates. -/
theorem truncation_keeps_top_max_shown_witness :
    truncateShown 1 (sortByScoreDesc
        [((⟨1, "a", some ["x"], "u1", "p1"⟩ : Page), (1 : ℚ) / 2),
          ((⟨2, "b", some ["y"], "u2", "p2"⟩ : Page), (3 : ℚ) / 4)]) =
      (sortByScoreDesc
        [((⟨1, "a", some ["x"], "u1", "p1"⟩ : Page), (1 : ℚ) / 2),
          ((⟨2, "b", some ["y"], "u2", "p2"⟩ : Page), (3 : ℚ) / 4)]).take ((1 : Int).toNat) ∧
    (truncateShown 1 (sortByScoreDesc
        [((⟨1, "a", some ["x"], "u1", "p1"⟩ : Page), (1 : ℚ) / 2),
          ((⟨2, "b", some ["y"], "u2", "p2"⟩ : Page), (3 : ℚ) / 4)])).length =
      min ((1 : Int).toNat)
        ([((⟨1, "a", some ["x"], "u1", "p1"⟩ : Page), (1 : ℚ) / 2),
          ((⟨2, "b", some ["y"], "u2", "p2"⟩ : Page), (3 : ℚ) / 4)]).length :=
  (truncation_keeps_top_max_shown 1
      [((⟨1, "a", some ["x"], "u1", "p1"⟩ : Page), (1 : ℚ) / 2),
        ((⟨2, "b", some ["y"], "u2", "p2"⟩ : Page), (3 : ℚ) / 4)]).1 (by norm_num)

lemma filter_orderedInsert_byScore (x : Page × ℚ) (c : ℚ) (l : List (Page × ℚ)) :
    (l.orderedInsert byScoreDesc x).filter (fun p => decide (p.2 = c)) =
      if x.2 = c then x :: l.filter (fun p => decide (p.2 = c))
      else l.filter (fun p => decide (p.2 = c)) := by
  induction l with
  | nil =>
      simp only [List.orderedInsert]
      by_cases hx : x.2 = c <;> simp [List.filter_cons, hx]
  | cons y ys ih =>
      rw [List.orderedInsert]
      by_cases hxy : byScoreDesc x y
      · rw [if_pos hxy]
        by_cases hx : x.2 = c <;> by_cases hy : y.2 = c <;>
          simp [List.filter_cons, hx, hy]
      · rw [if_neg hxy]
        have hlt : x.2 < y.2 := not_le.mp hxy
        by_cases hx : x.2 = c
        · have hy : ¬y.2 = c := by
            rw [← hx]
            exact (ne_of_gt hlt)
          simp [List.filter_cons, hx, hy, ih]
        · simp [List.filter_cons, hx, ih]

lemma filter_sortByScoreDesc (c : ℚ) (l : List (Page × ℚ)) :
    (sortByScoreDesc l).filter (fun p => decide (p.2 = c)) =
      l.filter (fun p => decide (p.2 = c)) := by
  induction l with
  | nil => rfl
  | cons x xs ih =>
      have hstep : sortByScoreDesc (x :: xs) =
          (sortByScoreDesc xs).orderedInsert byScoreDesc x := rfl
      rw [hstep, filter_orderedInsert_byScore]
      by_cases hx : x.2 = c <;> simp [List.filter_cons, hx, ih]

/-- C8: the ranking is a permutation of the gathered candidates, sorted by
descending score, and the tie-break is stable: the candidates holding any
fixed score `c` appear in the output exactly in their discovery order.  The
sort is a pure function of the input list, so identical input ordering
yields identical output. -/
theorem ranking_sorted_stable :
    ∀ l : List (Page × ℚ),
      (sortByScoreDesc l).Perm l ∧
      (sortByScoreDesc l).Sorted byScoreDesc ∧
      ∀ c : ℚ, (sortByScoreDesc l).filter (fun p => decide (p.2 = c)) =
        l.filter (fun p => decide (p.2 = c)) :=
  fun l => ⟨List.perm_insertionSort byScoreDesc l, List.sorted_insertionSort byScoreDesc l,
    fun c => filter_sortByScoreDesc c l⟩

/-- Invariant of the candidate loop: gathered candidates have pairwise
distinct ids, every gathered candidate's id is recorded as processed, and
the page's own id never occurs among the gathered candidates. -/
def GatherInv (page : Page) (st : LoopState) : Prop :=
  (st.similar.map (fun p => p.1.pid)).Nodup ∧
  (∀ p ∈ st.similar, p.1.pid ∈ st.processed) ∧
  (∀ p ∈ st.similar, p.1.pid ≠ page.pid)

lemma processPost_ok_cases {page : Page} {set_a : Finset String} {θ : ℚ}
    {st : LoopState} {post : Page} {st' : LoopState}
    (h : processPost page set_a θ st post = Except.ok st') :
    (st' = st ∧ (post.pid = page.pid ∨ post.pid ∈ st.processed)) ∨
    (post.pid ≠ page.pid ∧ post.pid ∉ st.processed ∧
      (st' = ⟨st.similar, insert post.pid st.processed⟩ ∨
        ∃ s : ℚ, st' = ⟨st.similar ++ [(post, s)], insert post.pid st.processed⟩)) := by
  rw [processPost] at h
  by_cases hc : post.pid = page.pid ∨ post.pid ∈ st.processed
  · rw [if_pos hc] at h
    exact Or.inl ⟨(Except.ok.inj h).symm, hc⟩
  · rw [if_neg hc] at h
    push_neg at hc
    obtain ⟨hne, hnm⟩ := hc
    refine Or.inr ⟨hne, hnm, ?_⟩
    cases hcat : post.categoriesMeta with
    | none =>
        rw [hcat] at h
        exact absurd h (by simp)
    | some cats =>
        rw [hcat] at h
        have hst := (Except.ok.inj h).symm
        by_cases hθ : θ ≤ weighted_jaccard_similarity set_a cats.toFinset true
        · rw [if_pos hθ] at hst
          exact Or.inr ⟨_, hst⟩
        · rw [if_neg hθ] at hst
          exact Or.inl hst

lemma processPost_inv {page : Page} {set_a : Finset String} {θ : ℚ}
    {st : LoopState} {post : Page} {st' : LoopState}
    (h : processPost page set_a θ st post = Except.ok st')
    (hinv : GatherInv page st) :
    GatherInv page st' ∧ st.processed ⊆ st'.processed ∧
      (post.pid ≠ page.pid → post.pid ∈ st'.processed) := by
  obtain ⟨hnd, hmem, hnp⟩ := hinv
  rcases processPost_ok_cases h with ⟨rfl, hskip⟩ | ⟨hne, hnm, hs | ⟨s, hs⟩⟩
  · exact ⟨⟨hnd, hmem, hnp⟩, Finset.Subset.refl _, fun hne => hskip.resolve_left hne⟩
  · subst hs
    exact ⟨⟨hnd, fun p hp => Finset.mem_insert_of_mem (hmem p hp), hnp⟩,
      Finset.subset_insert _ _, fun _ => Finset.mem_insert_self _ _⟩
  · subst hs
    refine ⟨⟨?_, ?_, ?_⟩, Finset.subset_insert _ _, fun _ => Finset.mem_insert_self _ _⟩
    · rw [List.map_append]
      refine List.nodup_append.mpr ⟨hnd, List.nodup_singleton _, ?_⟩
      intro a ha hb
      simp only [List.map_cons, List.map_nil, List.mem_singleton] at hb
      rw [hb] at ha
      obtain ⟨q, hq, hqpid⟩ := List.mem_map.mp ha
      exact hnm (hqpid ▸ hmem q hq)
    · intro p hp
      rcases List.mem_append.mp hp with hold | hnew
      · exact Finset.mem_insert_of_mem (hmem p hold)
      · simp only [List.mem_singleton] at hnew
        rw [hnew]
        exact Finset.mem_insert_self _ _
    · intro p hp
      rcases List.mem_append.mp hp with hold | hnew
      · exact hnp p hold
      · simp only [List.mem_singleton] at hnew
        rw [hnew]
        exact hne

lemma foldlM_posts_inv {page : Page} {set_a : Finset String} {θ : ℚ} :
    ∀ (posts : List Page) (st st' : LoopState),
      posts.foldlM (processPost page set_a θ) st = Except.ok st' →
      GatherInv page st →
      GatherInv page st' ∧ st.processed ⊆ st'.processed ∧
        ∀ post ∈ posts, post.pid ≠ page.pid → post.pid ∈ st'.processed := by
  intro posts
  induction posts with
  | nil =>
      intro st st' h hinv
      rw [foldlM_except_nil] at h
      exact ⟨(Except.ok.inj h) ▸ hinv, (Except.ok.inj h) ▸ Finset.Subset.refl _, by simp⟩
  | cons p ps ih =>
      intro st st' h hinv
      rw [foldlM_except_cons] at h
      cases hp : processPost page set_a θ st p with
      | error e => rw [hp, except_bind_error] at h; exact absurd h (by simp)
      | ok st₁ =>
          rw [hp, except_bind_ok] at h
          obtain ⟨hinv₁, hsub₁, hmem₁⟩ := processPost_inv hp hinv
          obtain ⟨hinv', hsub', hall⟩ := ih st₁ st' h hinv₁
          refine ⟨hinv', hsub₁.trans hsub', ?_⟩
          intro q hq hqne
          rcases List.mem_cons.mp hq with rfl | hq
          · exact hsub' (hmem₁ hqne)
          · exact hall q hq hqne

lemma processView_inv {page : Page} {set_a : Finset String} {θ : ℚ}
    {st : LoopState} {view : BlogView} {st' : LoopState}
    (h : processView page set_a θ st view = Except.ok st')
    (hinv : GatherInv page st) :
    GatherInv page st' ∧ st.processed ⊆ st'.processed ∧
      (view.isCategory = true → view.name ∈ set_a →
        ∀ post ∈ view.posts, post.pid ≠ page.pid → post.pid ∈ st'.processed) := by
  rw [processView] at h
  by_cases hc : view.isCategory = false ∨ view.name ∉ set_a
  · rw [if_pos hc] at h
    refine ⟨(Except.ok.inj h) ▸ hinv, (Except.ok.inj h) ▸ Finset.Subset.refl _, ?_⟩
    intro hcat hname
    rcases hc with hc | hc
    · rw [hcat] at hc
      exact absurd hc (by simp)
    · exact absurd hname hc
  · rw [if_neg hc] at h
    obtain ⟨hinv', hsub', hall⟩ := foldlM_posts_inv view.posts st st' h hinv
    exact ⟨hinv', hsub', fun _ _ => hall⟩

lemma foldlM_views_inv {page : Page} {set_a : Finset String} {θ : ℚ} :
    ∀ (views : List BlogView) (st st' : LoopState),
      views.foldlM (processView page set_a θ) st = Except.ok st' →
      GatherInv page st →
      GatherInv page st' ∧ st.processed ⊆ st'.processed ∧
        ∀ v ∈ views, v.isCategory = true → v.name ∈ set_a →
          ∀ post ∈ v.posts, post.pid ≠ page.pid → post.pid ∈ st'.processed := by
  intro views
  induction views with
  | nil =>
      intro st st' h hinv
      rw [foldlM_except_nil] at h
      exact ⟨(Except.ok.inj h) ▸ hinv, (Except.ok.inj h) ▸ Finset.Subset.refl _, by simp⟩
  | cons v vs ih =>
      intro st st' h hinv
      rw [foldlM_except_cons] at h
      cases hv : processView page set_a θ st v with
      | error e => rw [hv, except_bind_error] at h; exact absurd h (by simp)
      | ok st₁ =>
          rw [hv, except_bind_ok] at h
          obtain ⟨hinv₁, hsub₁, hview₁⟩ := processView_inv hv hinv
          obtain ⟨hinv', hsub', hall⟩ := ih st₁ st' h hinv₁
          refine ⟨hinv', hsub₁.trans hsub', ?_⟩
          intro w hw hcat hname post hpost hpne
          rcases List.mem_cons.mp hw with rfl | hw
          · exact hsub' (hview₁ hcat hname post hpost hpne)
          · exact hall w hw hcat hname post hpost hpne

/-- C3: after candidate gathering, the scored candidates have pairwise
distinct identities (each document is scored and, after the permutation
that ranking applies, ranked exactly once, however many categories it
shares), the page itself never occurs among them, and every post of every
relevant category view other than the page itself has been processed. -/
theorem dedup_by_identity_no_self_match :
    ∀ (views : List BlogView) (page : Page) (set_a : Finset String) (θ : ℚ) (st' : LoopState),
      gatherSimilar views page set_a θ = Except.ok st' →
      (st'.similar.map (fun p => p.1.pid)).Nodup ∧
      ((sortByScoreDesc st'.similar).map (fun p => p.1.pid)).Nodup ∧
      (∀ p ∈ st'.similar, p.1.pid ≠ page.pid) ∧
      (∀ v ∈ views, v.isCategory = true → v.name ∈ set_a →
        ∀ post ∈ v.posts, post.pid ≠ page.pid → post.pid ∈ st'.processed) := by
  intro views page set_a θ st' h
  have h0 : GatherInv page ⟨[], ∅⟩ := ⟨List.nodup_nil, by simp, by simp⟩
  obtain ⟨⟨hnd, _, hnp⟩, _, hall⟩ := foldlM_views_inv views ⟨[], ∅⟩ st' h h0
  refine ⟨hnd, ?_, hnp, hall⟩
  have hperm : (sortByScoreDesc st'.similar).Perm st'.similar :=
    List.perm_insertionSort byScoreDesc st'.similar
  exact ((hperm.map (fun p => p.1.pid)).nodup_iff).mpr hnd

/-- Closed instantiation of `dedup_by_identity_no_self_match`: the page
shares two categories with candidate `d3`, and candidate `d2` appears in
both category views, yet each candidate is gathered once and the page not
at all. -/
theorem dedup_by_identity_no_self_match_witness :
    gatherSimilar
        [⟨true, "go",
            [⟨0, "pg", some ["go", "rust"], "blog/pg.md", "/d/blog/pg.md"⟩,
              ⟨1, "d2", some ["go"], "blog/d2.md", "/d/blog/d2.md"⟩,
              ⟨2, "d3", some ["go", "rust", "cpp"], "blog/d3.md", "/d/blog/d3.md"⟩]⟩,
          ⟨true, "rust",
            [⟨2, "d3", some ["go", "rust", "cpp"], "blog/d3.md", "/d/blog/d3.md"⟩,
              ⟨1, "d2", some ["go"], "blog/d2.md", "/d/blog/d2.md"⟩]⟩]
        (⟨0, "pg", some ["go", "rust"], "blog/pg.md", "/d/blog/pg.md"⟩ : Page)
        {"go", "rust"} (1 / 2) =
      Except.ok
        ⟨[(⟨1, "d2", some ["go"], "blog/d2.md", "/d/blog/d2.md"⟩, 3 / 4),
            (⟨2, "d3", some ["go", "rust", "cpp"], "blog/d3.md", "/d/blog/d3.md"⟩, 5 / 6)],
          insert 2 (insert 1 (∅ : Finset Nat))⟩ ∧
    (([(((⟨1, "d2", some ["go"], "blog/d2.md", "/d/blog/d2.md"⟩ : Page), (3 : ℚ) / 4)),
        (((⟨2, "d3", some ["go", "rust", "cpp"], "blog/d3.md", "/d/blog/d3.md"⟩ : Page),
          (5 : ℚ) / 6))].map (fun p => p.1.pid)).Nodup ∧
      ∀ p ∈ ([(((⟨1, "d2", some ["go"], "blog/d2.md", "/d/blog/d2.md"⟩ : Page), (3 : ℚ) / 4)),
          (((⟨2, "d3", some ["go", "rust", "cpp"], "blog/d3.md", "/d/blog/d3.md"⟩ : Page),
            (5 : ℚ) / 6))] : List (Page × ℚ)),
        p.1.pid ≠ (⟨0, "pg", some ["go", "rust"], "blog/pg.md", "/d/blog/pg.md"⟩ : Page).pid) := by
  have hrun : gatherSimilar
      [⟨true, "go",
          [⟨0, "pg", some ["go", "rust"], "blog/pg.md", "/d/blog/pg.md"⟩,
            ⟨1, "d2", some ["go"], "blog/d2.md", "/d/blog/d2.md"⟩,
            ⟨2, "d3", some ["go", "rust", "cpp"], "blog/d3.md", "/d/blog/d3.md"⟩]⟩,
        ⟨true, "rust",
          [⟨2, "d3", some ["go", "rust", "cpp"], "blog/d3.md", "/d/blog/d3.md"⟩,
            ⟨1, "d2", some ["go"], "blog/d2.md", "/d/blog/d2.md"⟩]⟩]
      (⟨0, "pg", some ["go", "rust"], "blog/pg.md", "/d/blog/pg.md"⟩ : Page)
      {"go", "rust"} (1 / 2) =
      Except.ok
        ⟨[(⟨1, "d2", some ["go"], "blog/d2.md", "/d/blog/d2.md"⟩, 3 / 4),
            (⟨2, "d3", some ["go", "rust", "cpp"], "blog/d3.md", "/d/blog/d3.md"⟩, 5 / 6)],
          insert 2 (insert 1 (∅ : Finset Nat))⟩ := by
    have e2 : weighted_jaccard_similarity {"go", "rust"} {"go"} true = 3 / 4 := by
      have h2 : ({"go", "rust"} : Finset String).card = 2 := by decide
      have h1 : (({"go", "rust"} : Finset String) ∩ {"go"}).card = 1 := by decide
      have h1' : ({"go"} : Finset String).card = 1 := by decide
      rw [weighted_jaccard_similarity, if_neg (by decide), wjs_denominator, if_pos rfl,
        h1, h1', h2]
      norm_num
    have e3 : weighted_jaccard_similarity {"go", "rust"} {"go", "rust", "cpp"} true = 5 / 6 := by
      have h2 : ({"go", "rust"} : Finset String).card = 2 := by decide
      have h3 : ({"go", "rust", "cpp"} : Finset String).card = 3 := by decide
      have hi : (({"go", "rust"} : Finset String) ∩ {"go", "rust", "cpp"}).card = 2 := by decide
      rw [weighted_jaccard_similarity, if_neg (by decide), wjs_denominator, if_pos rfl,
        hi, h2, h3]
      norm_num
    have hc2 : ((2 : ℚ))⁻¹ ≤ 3 / 4 := by norm_num
    have hc3 : ((2 : ℚ))⁻¹ ≤ 5 / 6 := by norm_num
    simp [gatherSimilar, foldlM_except_cons, foldlM_except_nil, except_bind_ok,
      processView, processPost, e2, e3, hc2, hc3]
  have hc := dedup_by_identity_no_self_match _ _ _ _ _ hrun
  exact ⟨hrun, hc.1, hc.2.2.1⟩

end SimilarBlogPosts
